import Mathlib

/-!
Verification of the CodeDeck mailer (src/mailer.py) against its design
specification.  The Python program is shallowly embedded below: pure
functions become Lean functions, the mutable progress tracker becomes
explicit state passing on a `Ledger` record, randomness (random.choice,
send outcomes, cursor contents) becomes explicit oracle arguments, and
Python exceptions become `Except` values.
-/

namespace Mailer

/-! ## Python string primitives -/

/-- Python str.lower() (the addresses handled by the program are ASCII;
Char.toLower lowercases exactly the ASCII range). -/
def pyLower (s : String) : String := String.mk (s.data.map Char.toLower)

/-- Python membership test `c in s` for a single character. -/
def pyIn (c : Char) (s : String) : Bool := s.data.contains c

/-- Python str.strip(): drop leading and trailing whitespace. -/
def pyStrip (s : String) : String :=
  String.mk (((s.data.dropWhile Char.isWhitespace).reverse.dropWhile Char.isWhitespace).reverse)

/-! ## Progress tracker (class ProgressTracker) -/

/-- The in-memory ledger `self.data` of ProgressTracker: the `sent` list,
the `failed` mapping (insertion-ordered, as a Python dict), the daily
counter and the stored daily date (None or an ISO date string).  The
`campaign` and `last_updated` fields never influence behaviour and are
omitted. -/
structure Ledger where
  sent : List String
  failed : List (String × String)
  daily_count : Nat
  daily_date : Option String
deriving DecidableEq

/-- The dict built in ProgressTracker.__init__ / reset. -/
def defaultLedger : Ledger := ⟨[], [], 0, none⟩

/-- ProgressTracker.is_sent: `email.lower() in [e.lower() for e in self.data["sent"]]`. -/
def is_sent (L : Ledger) (email : String) : Bool :=
  (L.sent.map pyLower).contains (pyLower email)

/-- Python dict upsert `d[k] = v`: replace the value in place if the key
exists, else append (insertion order preserved). -/
def upsert (d : List (String × String)) (k v : String) : List (String × String) :=
  if d.any (fun p => p.1 = k) then d.map (fun p => if p.1 = k then (k, v) else p)
  else d ++ [(k, v)]

/-- ProgressTracker.mark_sent followed by _update_daily_count: append the
email to sent; if the stored daily_date differs from today, set it to today
and the counter to 1, else increment the counter.  `today` is the value of
`datetime.now(timezone.utc).date().isoformat()`. -/
def mark_sent (L : Ledger) (today : String) (email : String) : Ledger :=
  let L1 : Ledger := { L with sent := L.sent ++ [email] }
  if L1.daily_date ≠ some today then
    { L1 with daily_date := some today, daily_count := 1 }
  else
    { L1 with daily_count := L1.daily_count + 1 }

/-- ProgressTracker.mark_failed: `self.data["failed"][email] = reason`. -/
def mark_failed (L : Ledger) (email reason : String) : Ledger :=
  { L with failed := upsert L.failed email reason }

/-- ProgressTracker.get_daily_count: 0 when the stored date differs from
today (UTC), else the stored counter; a pure read. -/
def get_daily_count (L : Ledger) (today : String) : Nat :=
  if L.daily_date ≠ some today then 0 else L.daily_count

/-! ## Recipients and run limits -/

/-- A recipient dict {email, first_name, source} as produced by the
fetchers or the test-mode branch. -/
structure Recipient where
  email : String
  first_name : String
  source : String
deriving DecidableEq

/-- Python list slicing `l[:n]` for an arbitrary int n: a nonnegative n
takes the first n elements, a negative n drops |n| elements from the end
(empty when |n| exceeds the length). -/
def pySlice {α : Type} (n : Int) (l : List α) : List α :=
  if 0 ≤ n then l.take n.toNat else l.take ((l.length + n).toNat)

/-- The limit section of run_campaign (lines 486-494): `if limit:
pending = pending[:limit]` then `if len(pending) > remaining_today:
pending = pending[:remaining_today]`.  A limit of None or 0 is falsy in
Python, so the first truncation is skipped for it. -/
def applyLimits (limit : Option Int) (remaining : Nat) (pending : List Recipient) :
    List Recipient :=
  let p1 := match limit with
    | none => pending
    | some n => if n ≠ 0 then pySlice n pending else pending
  if remaining < p1.length then p1.take remaining else p1

/-- Function extract_first_name: "there" for a missing or all-whitespace
name, else the first whitespace-delimited token of the trimmed name. -/
def extract_first_name (full_name : Option String) : String :=
  match full_name with
  | none => "there"
  | some s =>
    if pyStrip s = "" then "there"
    else String.mk ((pyStrip s).data.takeWhile (fun c => !c.isWhitespace))

/-! ## Spintax processor (process_spintax)

The Python code repeatedly applies `re.sub(r"\x7b([^\x7b\x7d]+)\x7d", spin, text)`
until `re.search` finds no match.  The pattern matches an opening brace, a
nonempty run of non-brace characters, and a closing brace; a single sub
pass rewrites all such (innermost) groups left to right, replacing each
with `random.choice(group.split("|"))`.  Randomness is embedded as a
stream of naturals consumed left to right; a choice among k options takes
the next natural modulo k. -/

/-- The two metacharacters of the spintax pattern. -/
def isBrace (c : Char) : Bool := c == '{' || c == '}'

/-- Longest brace-free prefix of a character list together with the rest;
the greedy match of the character class part of the pattern. -/
def spanNB : List Char → List Char × List Char
  | [] => ([], [])
  | c :: cs =>
    if isBrace c then ([], c :: cs)
    else
      let p := spanNB cs
      (c :: p.1, p.2)

/-- Python str.split("|"): always returns at least one (possibly empty)
field. -/
def splitPipe : List Char → List (List Char)
  | [] => [[]]
  | c :: cs =>
    if c == '|' then [] :: splitPipe cs
    else
      match splitPipe cs with
      | [] => [[c]]
      | g :: gs => (c :: g) :: gs

/-- random.choice on a nonempty list of options, driven by one natural
from the random stream (taken modulo the number of options, so every
option is reachable). -/
def choiceOf (r : Nat) (options : List (List Char)) : List Char :=
  options.getD (r % options.length) []

/-- Draw the next natural from the random stream (0 when exhausted). -/
def nextRand : List Nat → Nat × List Nat
  | [] => (0, [])
  | r :: rs => (r, rs)

/-- Attempt to match the remainder of the pattern just after an opening
brace: a nonempty brace-free run followed by a closing brace.  Returns
the run and the text after the closing brace. -/
def groupSplit (cs : List Char) : Option (List Char × List Char) :=
  match spanNB cs with
  | (run, '}' :: tail) => if run.isEmpty then none else some (run, tail)
  | _ => none

/-- One re.sub pass over the text, fuel-indexed so that the recursion is
structural (the fuel never runs out when it starts at the text length):
scan left to right; at an opening brace whose following brace-free run is
nonempty and closed by a closing brace, emit one randomly chosen option
of the run split on the pipe character and continue after the closing
brace; otherwise emit the character and continue. -/
def subPassF (fuel : Nat) (t : List Char) (rs : List Nat) : List Char × List Nat :=
  match fuel, t with
  | 0, t => (t, rs)
  | _ + 1, [] => ([], rs)
  | f + 1, c :: cs =>
    if c == '{' then
      match groupSplit cs with
      | some (run, tail) =>
        let pr := nextRand rs
        let picked := choiceOf pr.1 (splitPipe run)
        let q := subPassF f tail pr.2
        (picked ++ q.1, q.2)
      | none =>
        let p := subPassF f cs rs
        ('{' :: p.1, p.2)
    else
      let p := subPassF f cs rs
      (c :: p.1, p.2)

/-- One re.sub pass (the fuel equals the text length, which never runs
out). -/
def subPass (t : List Char) (rs : List Nat) : List Char × List Nat :=
  subPassF t.length t rs

/-- re.search for the spintax pattern: does the text contain an innermost
group?  A match can only start at an opening brace, so scanning position
by position amounts to testing groupSplit below every character. -/
def hasGroup : List Char → Bool
  | [] => false
  | c :: cs =>
    if c == '{' then ((groupSplit cs).isSome || hasGroup cs) else hasGroup cs

/-- Number of opening braces, the termination measure of the while loop:
every successful sub pass removes at least one. -/
def countOpen (t : List Char) : Nat := t.countP (fun c => c == '{')

/-- The while loop of process_spintax, fuel-indexed; countOpen t is
enough fuel. -/
def spinLoop : Nat → List Char → List Nat → List Char × List Nat
  | 0, t, rs => (t, rs)
  | fuel + 1, t, rs =>
    if hasGroup t then
      let p := subPass t rs
      spinLoop fuel p.1 p.2
    else (t, rs)

/-- Function process_spintax: keep substituting innermost groups until
none remain.  Returns the resolved text and the unconsumed part of the
random stream. -/
def process_spintax (t : List Char) (rs : List Nat) : List Char × List Nat :=
  spinLoop (countOpen t) t rs

/-! ## Variable substitution and message building -/

/-- Python str.replace for the nonempty patterns used here, fuel-indexed
structurally (the fuel starts at the text length and never runs out):
scan left to right; where the pattern is a prefix, emit the replacement
and skip the pattern (replaced text is not rescanned), else emit one
character. -/
def replaceAllF (pat rep : List Char) : Nat → List Char → List Char
  | 0, t => t
  | _ + 1, [] => []
  | f + 1, c :: cs =>
    if pat ≠ [] ∧ pat.isPrefixOf (c :: cs) then
      rep ++ replaceAllF pat rep f ((c :: cs).drop pat.length)
    else c :: replaceAllF pat rep f cs

/-- Python text.replace(pat, rep) with adequate fuel. -/
def replaceAll (pat rep t : List Char) : List Char := replaceAllF pat rep t.length t

/-- Does pat occur as a contiguous run inside the text? -/
def containsSub (pat : List Char) : List Char → Bool
  | [] => pat.isEmpty
  | c :: cs => pat.isPrefixOf (c :: cs) || containsSub pat cs

/-- Function replace_variables: fold over the variable items in insertion
order, replacing every occurrence of the doubled-brace placeholder of
each name by its value. -/
def replace_variables (t : List Char) (vars : List (List Char × List Char)) : List Char :=
  vars.foldl (fun acc kv => replaceAll (['{', '{'] ++ kv.1 ++ ['}', '}']) kv.2 acc) t

/-- Function build_message: substitute the single variable first_name in
the subject and body templates, then resolve spintax in each; the global
random stream is threaded through the subject first, then the body. -/
def build_message (first_name subject_template body_template : List Char)
    (rs : List Nat) : (List Char × List Char) × List Nat :=
  let vars := [("first_name".data, first_name)]
  let s1 := replace_variables subject_template vars
  let ps := process_spintax s1 rs
  let b1 := replace_variables body_template vars
  let pb := process_spintax b1 ps.2
  ((ps.1, pb.1), pb.2)

/-! ## Recipient fetching (fetch_from_mongodb, fetch_from_json) -/

/-- A field value of an external document: a string or some non-string
value (the code only distinguishes the two via isinstance). -/
inductive PyVal where
  | str (s : String)
  | other

/-- A cursor document / file entry, holding the optional email field and
the optional name field. -/
structure MDoc where
  emailVal : Option PyVal
  nameVal : Option String

/-- The per-document body shared by both fetch loops: skip documents with
a missing, non-string or falsy email, normalize with strip then lower,
skip entries without an at sign and duplicates of an already-seen key,
otherwise record the recipient under the normalized key. -/
def procDoc (source : String) (acc : List (String × Recipient)) (d : MDoc) :
    List (String × Recipient) :=
  match d.emailVal with
  | none => acc
  | some PyVal.other => acc
  | some (PyVal.str e0) =>
    if e0 = "" then acc
    else
      let e := pyLower (pyStrip e0)
      if e = "" ∨ ¬ (pyIn '@' e) then acc
      else if acc.any (fun p => p.1 = e) then acc
      else acc ++ [(e, ⟨e, extract_first_name d.nameVal, source⟩)]

/-- One event while iterating an external source: a document, or an
exception raised by the iteration itself (e.g. a dropped connection or a
malformed entry). -/
inductive FetchStep where
  | doc (d : MDoc)
  | err (msg : String)

/-- The document loop of the fetchers.  An error raised mid-iteration
propagates to the surrounding except handler, which reports it and falls
through to returning the recipients accumulated so far. -/
def fetchLoop (source : String) : List FetchStep → List (String × Recipient) →
    List (String × Recipient)
  | [], acc => acc
  | FetchStep.err _ :: _, acc => acc
  | FetchStep.doc d :: rest, acc => fetchLoop source rest (procDoc source acc d)

/-- Function fetch_from_mongodb, with the external world as arguments:
the config gate, and the connection attempt, which either raises before
any document is produced or yields the cursor's event stream.  The
try/except absorbs every exception and the accumulated dict is
returned. -/
def fetch_from_mongodb (enabled : Bool) (conn : Except String (List FetchStep)) :
    List (String × Recipient) :=
  if !enabled then []
  else
    match conn with
    | Except.error _ => []
    | Except.ok steps => fetchLoop "MongoDB" steps []

/-- Function fetch_from_json: a missing file yields no recipients, a file
whose parse raises is absorbed to no recipients, and otherwise the entry
loop runs like the MongoDB one. -/
def fetch_from_json (file : Option (Except String (List FetchStep))) :
    List (String × Recipient) :=
  match file with
  | none => []
  | some (Except.error _) => []
  | some (Except.ok entries) => fetchLoop "JSON" entries []

/-- Is the event a document (no exception)? -/
def isDoc : FetchStep → Bool
  | FetchStep.doc _ => true
  | FetchStep.err _ => false

/-! ## Progress file loading (ProgressTracker._load) -/

/-- A JSON value as the json module returns it. -/
inductive JValue where
  | null
  | bool (b : Bool)
  | num (n : Int)
  | str (s : String)
  | arr (xs : List JValue)
  | obj (kvs : List (String × JValue))

/-- Python subscription data[k] for a string key: a KeyError on objects
without the key, a TypeError on non-objects. -/
def subscript : JValue → String → Except String JValue
  | JValue.obj kvs, k =>
    match kvs.find? (fun p => p.1 == k) with
    | some p => Except.ok p.2
    | none => Except.error "KeyError"
  | _, _ => Except.error "TypeError"

/-- Python len(): defined for arrays, objects and strings, a TypeError
otherwise. -/
def pyLen : JValue → Except String Nat
  | JValue.arr xs => Except.ok xs.length
  | JValue.obj kvs => Except.ok kvs.length
  | JValue.str s => Except.ok s.length
  | _ => Except.error "TypeError"

/-- The dict of ProgressTracker.__init__ as a JSON value. -/
def defaultData : JValue :=
  JValue.obj [("campaign", JValue.str "email-campaign"), ("sent", JValue.arr []),
    ("failed", JValue.obj []), ("last_updated", JValue.null),
    ("daily_count", JValue.num 0), ("daily_date", JValue.null)]

/-- ProgressTracker._load for an existing progress file.  The parse
outcome of json.load stands in for the file content; none models a
json.JSONDecodeError, the only exception the code catches.  A successful
parse installs the parsed value verbatim, after which the progress
message evaluates len of the sent and failed entries; any error raised
there escapes the method.  The Bool records whether the corrupt-file
warning was printed. -/
def tracker_load (parsed : Option JValue) : Except String (JValue × Bool) :=
  match parsed with
  | none => Except.ok (defaultData, true)
  | some v => do
    let s ← subscript v "sent"
    let _ ← pyLen s
    let f ← subscript v "failed"
    let _ ← pyLen f
    Except.ok (v, false)

/-- Is the value a JSON string? -/
def isStr : JValue → Bool
  | JValue.str _ => true
  | _ => false

/-- A well-formed progress ledger in the sense of the specification's
ProgressRecord: an object whose sent entry is an array of strings, whose
failed entry is an object with string reasons, whose daily_count is an
integer and whose daily_date is null or a string. -/
def wellFormedLedger : JValue → Bool
  | JValue.obj kvs =>
    (match kvs.find? (fun p => p.1 == "sent") with
      | some (_, JValue.arr xs) => xs.all isStr
      | _ => false) &&
    (match kvs.find? (fun p => p.1 == "failed") with
      | some (_, JValue.obj fs) => fs.all (fun p => isStr p.2)
      | _ => false) &&
    (match kvs.find? (fun p => p.1 == "daily_count") with
      | some (_, JValue.num _) => true
      | _ => false) &&
    (match kvs.find? (fun p => p.1 == "daily_date") with
      | some (_, JValue.null) => true
      | some (_, JValue.str _) => true
      | _ => false)
  | _ => false

/-! ## Campaign driver (run_campaign) -/

/-- What one campaign run produces besides console output: the final
ledger, the addresses handed to the mail sender in order, and the
addresses whose templates were expanded for the dry-run preview. -/
structure RunResult where
  ledger : Ledger
  sends : List String
  previews : List String
deriving DecidableEq

/-- The dry-run preview loop: build a message for each listed pending
recipient (run_campaign passes the first 20), threading the random
stream. -/
def previewLoop (subj body : List Char) :
    List Recipient → List Nat → List (String × List Char)
  | [], _ => []
  | r :: rest, rs =>
    let m := build_message r.first_name.data subj body rs
    (r.email, m.1.1) :: previewLoop subj body rest m.2

/-- The send loop: for each pending recipient, build the message, invoke
the send, and record the outcome — mark_sent on success, mark_failed with
the error text on failure (a rate-limit error additionally waits, which
changes no state; so do the inter-send delays).  The outcomes of the
external sends are an oracle list: none is success, some msg a raised
error.  Returns the final ledger and the attempted addresses in order. -/
def sendLoop (today : String) (subj body : List Char) :
    List Recipient → List Nat → List (Option String) → Ledger → Ledger × List String
  | [], _, _, L => (L, [])
  | r :: rest, rs, outs, L =>
    let m := build_message r.first_name.data subj body rs
    let L1 := match outs.headD none with
      | none => mark_sent L today r.email
      | some msg => mark_failed L r.email msg
    let p := sendLoop today subj body rest m.2 outs.tail L1
    (p.1, r.email :: p.2)

/-- Function run_campaign after config and template loading, with the
recipients already supplied (the test-mode single recipient or the
aggregator output): check the daily quota, drop recipients whose email
is_sent, apply the explicit limit then the daily cap, and either preview
the first 20 without touching any state (dry run) or run the send
loop. -/
def run_campaign (daily_limit : Nat) (today : String) (L : Ledger)
    (recipients : List Recipient) (dry_run : Bool) (limit : Option Int)
    (subject_template body_template : List Char) (rs : List Nat)
    (outcomes : List (Option String)) : RunResult :=
  let daily_count := get_daily_count L today
  if daily_limit ≤ daily_count then ⟨L, [], []⟩
  else
    let remaining := daily_limit - daily_count
    if recipients.isEmpty then ⟨L, [], []⟩
    else
      let pending := recipients.filter (fun r => !(is_sent L r.email))
      if pending.isEmpty then ⟨L, [], []⟩
      else
        let capped := applyLimits limit remaining pending
        if dry_run then
          ⟨L, [],
            (previewLoop subject_template body_template (capped.take 20) rs).map Prod.fst⟩
        else
          let s := sendLoop today subject_template body_template capped rs outcomes L
          ⟨s.1, s.2, []⟩

/-! ## Theorems -/

/-- Helper: list contains from membership, for the string lists used by
the ledger. -/
theorem contains_of_mem {a : String} {l : List String} (h : a ∈ l) :
    l.contains a = true := by
  induction l with
  | nil => simp at h
  | cons b t ih =>
    rcases List.mem_cons.mp h with h1 | h2
    · simp [List.contains_cons, h1]
    · simp only [List.contains_cons, ih h2, Bool.or_true]

/-- Helper: membership in the sent list makes is_sent true. -/
theorem is_sent_of_mem {L : Ledger} {e : String} (h : e ∈ L.sent) :
    is_sent L e = true := by
  unfold is_sent
  exact contains_of_mem (List.mem_map_of_mem _ h)

/-- C7, counterexample.  The claim says is_sent uses the trimmed,
lowercased form so that "Foo@Bar.com " (trailing blank) and
"foo@bar.com" collide; in the code is_sent only lowercases and never
trims, so neither direction of the collision holds. -/
theorem C7_counterexample :
    is_sent ⟨["foo@bar.com"], [], 0, none⟩ "Foo@Bar.com " = false ∧
    is_sent ⟨["Foo@Bar.com "], [], 0, none⟩ "foo@bar.com" = false := by
  constructor <;> decide

/-- C7, amended: the key used by is_sent is the lowercased (but not
trimmed) form of the address: is_sent is invariant under case changes of
its argument, any exact member of the sent list is reported sent, and the
trailing-space form "Foo@Bar.com " does not collide with "foo@bar.com". -/
theorem C7_is_sent_lowercase_only :
    (∀ (L : Ledger) (e e' : String), pyLower e = pyLower e' →
      is_sent L e = is_sent L e') ∧
    (∀ (L : Ledger) (e : String), e ∈ L.sent → is_sent L e = true) ∧
    is_sent ⟨["foo@bar.com"], [], 0, none⟩ "Foo@Bar.com " = false := by
  refine ⟨?_, ?_, by decide⟩
  · intro L e e' h
    unfold is_sent
    rw [h]
  · intro L e h
    exact is_sent_of_mem h

/-- C7, witness for the amended theorem at concrete inputs. -/
theorem C7_witness :
    is_sent ⟨["a@B.com"], [], 0, none⟩ "A@b.COM" = is_sent ⟨["a@B.com"], [], 0, none⟩ "a@b.com" ∧
    is_sent ⟨["a@B.com"], [], 0, none⟩ "a@B.com" = true := by
  refine ⟨C7_is_sent_lowercase_only.1 _ "A@b.COM" "a@b.com" (by decide),
    C7_is_sent_lowercase_only.2.1 _ "a@B.com" (by decide)⟩

/-- C8: get_daily_count returns 0 exactly when the stored date differs
from today and the stored counter otherwise (it is a pure function of the
ledger, so it mutates nothing); mark_sent sets the counter to 1 on a new
date and increments it otherwise, and get_daily_count never decreases
across a mark_sent on any day. -/
theorem C8_daily_count :
    (∀ (L : Ledger) (today : String), L.daily_date ≠ some today →
      get_daily_count L today = 0) ∧
    (∀ (L : Ledger) (today : String), L.daily_date = some today →
      get_daily_count L today = L.daily_count) ∧
    (∀ (L : Ledger) (today e : String), L.daily_date ≠ some today →
      (mark_sent L today e).daily_count = 1) ∧
    (∀ (L : Ledger) (today e : String), L.daily_date = some today →
      (mark_sent L today e).daily_count = L.daily_count + 1) ∧
    (∀ (L : Ledger) (today e : String),
      get_daily_count L today ≤ get_daily_count (mark_sent L today e) today) := by
  refine ⟨?_, ?_, ?_, ?_, ?_⟩
  · intro L today h; simp [get_daily_count, h]
  · intro L today h; simp [get_daily_count, h]
  · intro L today e h; simp [mark_sent, h]
  · intro L today e h; simp [mark_sent, h]
  · intro L today e
    by_cases h : L.daily_date = some today
    · simp [get_daily_count, mark_sent, h]
    · simp [get_daily_count, mark_sent, h]

/-- C8, witness at concrete inputs: a ledger dated yesterday reads 0
today and jumps to 1 on the first send of the new day. -/
theorem C8_witness :
    get_daily_count ⟨[], [], 5, some "2026-10-11"⟩ "2026-10-12" = 0 ∧
    (mark_sent ⟨[], [], 5, some "2026-10-11"⟩ "2026-10-12" "a@b.com").daily_count = 1 ∧
    (mark_sent ⟨[], [], 5, some "2026-10-12"⟩ "2026-10-12" "a@b.com").daily_count = 6 := by
  refine ⟨C8_daily_count.1 _ "2026-10-12" (by decide),
    C8_daily_count.2.2.1 _ "2026-10-12" "a@b.com" (by decide),
    C8_daily_count.2.2.2.1 ⟨[], [], 5, some "2026-10-12"⟩ "2026-10-12" "a@b.com" (by decide)⟩

/-- C6, counterexample.  With an explicit run limit of 0 the code skips
the truncation (`if limit:` is falsy), so 3 pending recipients against
limit 0 and daily remaining 5 yield 3 processed, not min(0, 5, 3) = 0. -/
theorem C6_counterexample :
    (applyLimits (some 0) 5 [⟨"a@x.com", "A", "JSON"⟩, ⟨"b@x.com", "B", "JSON"⟩,
      ⟨"c@x.com", "C", "JSON"⟩]).length = 3 ∧
    ¬ (3 : Nat) = min 0 (min 5 3) := by
  constructor <;> decide

/-- C6, amended: for every positive explicit run limit n, the number of
recipients kept by the limit section equals min(n, daily_remaining,
pending); the zero limit is excluded because Python treats it as falsy
and skips the explicit truncation. -/
theorem C6_limit_composition (n : Int) (remaining : Nat) (pending : List Recipient)
    (h : 1 ≤ n) :
    (applyLimits (some n) remaining pending).length =
      min n.toNat (min remaining pending.length) := by
  have h0 : n ≠ 0 := by omega
  have h1 : 0 ≤ n := by omega
  simp only [applyLimits, pySlice]
  split_ifs with hA <;> simp_all [List.length_take] <;> omega

/-- C6, witness: the spec's two worked examples, limit 10 with 3
remaining gives 3, limit 2 with 10 remaining gives 2. -/
theorem C6_witness :
    (applyLimits (some 10) 3 [⟨"a@x.com", "A", "JSON"⟩, ⟨"b@x.com", "B", "JSON"⟩,
      ⟨"c@x.com", "C", "JSON"⟩, ⟨"d@x.com", "D", "JSON"⟩]).length = 3 ∧
    (applyLimits (some 2) 10 [⟨"a@x.com", "A", "JSON"⟩, ⟨"b@x.com", "B", "JSON"⟩,
      ⟨"c@x.com", "C", "JSON"⟩, ⟨"d@x.com", "D", "JSON"⟩]).length = 2 := by
  constructor
  · rw [C6_limit_composition 10 3 _ (by decide)]; decide
  · rw [C6_limit_composition 2 10 _ (by decide)]; decide

/-- C10: a run limit of 0 is falsy in Python, so the explicit truncation
is skipped entirely: the result is the same as passing no limit, and the
run still processes up to min(daily_remaining, pending) recipients. -/
theorem C10_zero_limit_means_no_limit (remaining : Nat) (pending : List Recipient) :
    applyLimits (some 0) remaining pending = applyLimits none remaining pending ∧
    (applyLimits (some 0) remaining pending).length = min remaining pending.length := by
  constructor
  · simp only [applyLimits]
    simp
  · simp only [applyLimits]
    split_ifs with hA <;> simp_all [List.length_take]

/-! ### Spintax lemmas -/

/-- The two components of spanNB reassemble to the input. -/
theorem spanNB_eq : ∀ l : List Char, (spanNB l).1 ++ (spanNB l).2 = l := by
  intro l
  induction l with
  | nil => rfl
  | cons c cs ih =>
    by_cases h : isBrace c
    · simp [spanNB, h]
    · simp [spanNB, h, ih]

/-- Every character of the brace-free run really is brace-free. -/
theorem spanNB_fst_nb : ∀ l : List Char, ∀ c ∈ (spanNB l).1, isBrace c = false := by
  intro l
  induction l with
  | nil => intro c hc; simp [spanNB] at hc
  | cons a as ih =>
    intro c hc
    by_cases h : isBrace a
    · simp [spanNB, h] at hc
    · simp only [spanNB, h, Bool.false_eq_true, if_false, List.mem_cons] at hc
      rcases hc with rfl | hc
      · simpa using h
      · exact ih c hc

/-- splitPipe never returns the empty list of fields. -/
theorem splitPipe_ne_nil : ∀ l : List Char, splitPipe l ≠ [] := by
  intro l
  induction l with
  | nil => simp [splitPipe]
  | cons a as ih =>
    by_cases h : a == '|'
    · simp [splitPipe, h]
    · simp only [splitPipe, h, Bool.false_eq_true, if_false]
      rcases hsp : splitPipe as with _ | ⟨g, gs⟩
      · simp
      · simp

/-- Characters of a splitPipe field come from the split input. -/
theorem splitPipe_mem : ∀ (l : List Char) (g : List Char), g ∈ splitPipe l →
    ∀ c ∈ g, c ∈ l := by
  intro l
  induction l with
  | nil =>
    intro g hg c hc
    simp [splitPipe] at hg
    subst hg
    simp at hc
  | cons a as ih =>
    intro g hg c hc
    by_cases h : a == '|'
    · simp only [splitPipe, h, if_true, List.mem_cons] at hg
      rcases hg with rfl | hg
      · simp at hc
      · exact List.mem_cons_of_mem _ (ih g hg c hc)
    · simp only [splitPipe, h, Bool.false_eq_true, if_false] at hg
      rcases hsp : splitPipe as with _ | ⟨g0, gs⟩
      · exact absurd hsp (splitPipe_ne_nil as)
      · rw [hsp] at hg
        rcases List.mem_cons.mp hg with rfl | hg2
        · rcases List.mem_cons.mp hc with rfl | hc2
          · exact List.mem_cons_self _ _
          · exact List.mem_cons_of_mem _ (ih g0 (hsp ▸ List.mem_cons_self _ _) c hc2)
        · exact List.mem_cons_of_mem _ (ih g (hsp ▸ List.mem_cons_of_mem _ hg2) c hc)

/-- choiceOf yields one of the options or the empty default. -/
theorem choiceOf_mem_or (r : Nat) (opts : List (List Char)) :
    choiceOf r opts ∈ opts ∨ choiceOf r opts = [] := by
  unfold choiceOf
  rcases Nat.lt_or_ge (r % opts.length) opts.length with h | h
  · left
    rw [List.getD_eq_getElem _ _ h]
    exact List.getElem_mem h
  · right
    exact List.getD_eq_default _ _ h

theorem countOpen_nil : countOpen [] = 0 := rfl

theorem countOpen_cons (c : Char) (l : List Char) :
    countOpen (c :: l) = countOpen l + (if c == '{' then 1 else 0) := by
  simp [countOpen, List.countP_cons]

theorem countOpen_append (a b : List Char) :
    countOpen (a ++ b) = countOpen a + countOpen b := by
  simp [countOpen, List.countP_append]

/-- Brace-free text has no opening braces. -/
theorem countOpen_eq_zero_of_nb {l : List Char} (h : ∀ c ∈ l, isBrace c = false) :
    countOpen l = 0 := by
  unfold countOpen
  rw [List.countP_eq_zero]
  intro c hc
  have := h c hc
  simp only [isBrace, Bool.or_eq_false_iff] at this
  simp [this.1]

/-- A chosen option of a brace-free run is brace-free. -/
theorem countOpen_choice_eq_zero {run : List Char} (r : Nat)
    (h : ∀ c ∈ run, isBrace c = false) :
    countOpen (choiceOf r (splitPipe run)) = 0 := by
  rcases choiceOf_mem_or r (splitPipe run) with hm | he
  · exact countOpen_eq_zero_of_nb (fun c hc => h c (splitPipe_mem run _ hm c hc))
  · rw [he]; rfl

/-- Text containing a group contains an opening brace. -/
theorem hasGroup_pos : ∀ t : List Char, hasGroup t = true → 0 < countOpen t := by
  intro t
  induction t with
  | nil => intro h; simp [hasGroup] at h
  | cons c cs ih =>
    intro h
    by_cases hc : c == '{'
    · rw [countOpen_cons]
      simp [hc]
    · rw [countOpen_cons]
      have h' : hasGroup cs = true := by
        simpa [hasGroup, hc] using h
      have := ih h'
      omega

/-- A successful groupSplit decomposes the text after the opening brace
into a nonempty brace-free run, the closing brace and the tail. -/
theorem groupSplit_some (cs run tail : List Char) (h : groupSplit cs = some (run, tail)) :
    run ++ '}' :: tail = cs ∧ run ≠ [] ∧ ∀ c ∈ run, isBrace c = false := by
  unfold groupSplit at h
  split at h
  next r t heq =>
    by_cases hr : r.isEmpty
    · simp [hr] at h
    · simp only [hr, Bool.false_eq_true, if_false, Option.some.injEq, Prod.mk.injEq] at h
      rcases h with ⟨rfl, rfl⟩
      refine ⟨?_, ?_, ?_⟩
      · have := spanNB_eq cs
        rw [heq] at this
        exact this
      · intro hnil
        rw [hnil] at hr
        simp at hr
      · intro c hc
        exact spanNB_fst_nb cs c (by rw [heq]; exact hc)
  next => simp at h

/-- A sub pass never creates opening braces. -/
theorem countOpen_subPassF : ∀ (f : Nat) (t : List Char) (rs : List Nat),
    t.length ≤ f → countOpen (subPassF f t rs).1 ≤ countOpen t := by
  intro f
  induction f with
  | zero =>
    intro t rs h
    simp [subPassF]
  | succ f ih =>
    intro t rs h
    rcases t with _ | ⟨c, cs⟩
    · simp [subPassF]
    · simp only [List.length_cons, Nat.add_le_add_iff_right] at h
      by_cases hc : c == '{'
      · rcases hgs : groupSplit cs with _ | ⟨run, tail⟩
        · simp only [subPassF, hc, if_true, hgs]
          rw [countOpen_cons, countOpen_cons]
          have := ih cs rs h
          simp only [hc, if_true, beq_self_eq_true]
          omega
        · obtain ⟨hre, hrun_ne, hnb⟩ := groupSplit_some cs run tail hgs
          simp only [subPassF, hc, if_true, hgs]
          have htl : tail.length ≤ f := by
            have := congrArg List.length hre
            simp only [List.length_append, List.length_cons] at this
            omega
          have hq := ih tail (nextRand rs).2 htl
          have hpk : countOpen (choiceOf (nextRand rs).1 (splitPipe run)) = 0 :=
            countOpen_choice_eq_zero _ hnb
          rw [countOpen_append, hpk, countOpen_cons]
          have hcs : countOpen cs = countOpen tail := by
            rw [← hre, countOpen_append, countOpen_cons, countOpen_eq_zero_of_nb hnb]
            simp
          simp only [hc, if_true]
          omega
      · simp only [subPassF, hc, Bool.false_eq_true, if_false]
        rw [countOpen_cons, countOpen_cons]
        have := ih cs rs h
        omega

/-- A sub pass on text that still has a group strictly decreases the
number of opening braces: each successful replacement consumes its
braces and inserts brace-free text. -/
theorem countOpen_subPassF_lt : ∀ (f : Nat) (t : List Char) (rs : List Nat),
    t.length ≤ f → hasGroup t = true → countOpen (subPassF f t rs).1 < countOpen t := by
  intro f
  induction f with
  | zero =>
    intro t rs h hg
    have ht : t = [] := List.eq_nil_of_length_eq_zero (Nat.le_zero.mp h)
    subst ht
    simp [hasGroup] at hg
  | succ f ih =>
    intro t rs h hg
    rcases t with _ | ⟨c, cs⟩
    · simp [hasGroup] at hg
    · simp only [List.length_cons, Nat.add_le_add_iff_right] at h
      by_cases hc : c == '{'
      · rcases hgs : groupSplit cs with _ | ⟨run, tail⟩
        · have hg' : hasGroup cs = true := by
            simpa [hasGroup, hc, hgs] using hg
          simp only [subPassF, hc, if_true, hgs]
          rw [countOpen_cons, countOpen_cons]
          have := ih cs rs h hg'
          simp only [hc, if_true, beq_self_eq_true]
          omega
        · obtain ⟨hre, hrun_ne, hnb⟩ := groupSplit_some cs run tail hgs
          simp only [subPassF, hc, if_true, hgs]
          have htl : tail.length ≤ f := by
            have := congrArg List.length hre
            simp only [List.length_append, List.length_cons] at this
            omega
          have hq := countOpen_subPassF f tail (nextRand rs).2 htl
          have hpk : countOpen (choiceOf (nextRand rs).1 (splitPipe run)) = 0 :=
            countOpen_choice_eq_zero _ hnb
          rw [countOpen_append, hpk, countOpen_cons]
          have hcs : countOpen cs = countOpen tail := by
            rw [← hre, countOpen_append, countOpen_cons, countOpen_eq_zero_of_nb hnb]
            simp
          simp only [hc, if_true]
          omega
      · have hg' : hasGroup cs = true := by
          simpa [hasGroup, hc] using hg
        simp only [subPassF, hc, Bool.false_eq_true, if_false]
        rw [countOpen_cons, countOpen_cons]
        have := ih cs rs h hg'
        omega

/-- Enough fuel leaves no group standing. -/
theorem spinLoop_no_group : ∀ (fuel : Nat) (t : List Char) (rs : List Nat),
    countOpen t ≤ fuel → hasGroup (spinLoop fuel t rs).1 = false := by
  intro fuel
  induction fuel with
  | zero =>
    intro t rs h
    simp only [spinLoop]
    by_cases hg : hasGroup t
    · exact absurd (hasGroup_pos t hg) (by omega)
    · simpa using hg
  | succ f ih =>
    intro t rs h
    simp only [spinLoop]
    by_cases hg : hasGroup t
    · rw [if_pos hg]
      apply ih
      have := countOpen_subPassF_lt t.length t rs le_rfl hg
      unfold subPass
      omega
    · rw [if_neg hg]
      simpa using hg

/-- One sub pass on the nested template resolves exactly the innermost
group, even-indexed draw. -/
theorem subPass_nested_e (r : Nat) (rs : List Nat) (h : r % 2 = 0) :
    subPass ['{', 'a', '|', '{', 'b', '|', 'c', '}', '}'] (r :: rs) =
      (['{', 'a', '|', 'b', '}'], rs) := by
  simp [subPass, subPassF, groupSplit, spanNB, splitPipe, choiceOf, nextRand, isBrace, h]

/-- One sub pass on the nested template resolves exactly the innermost
group, odd-indexed draw. -/
theorem subPass_nested_o (r : Nat) (rs : List Nat) (h : r % 2 = 1) :
    subPass ['{', 'a', '|', '{', 'b', '|', 'c', '}', '}'] (r :: rs) =
      (['{', 'a', '|', 'c', '}'], rs) := by
  simp [subPass, subPassF, groupSplit, spanNB, splitPipe, choiceOf, nextRand, isBrace, h]

/-- One sub pass on a flat two-option group, even-indexed draw: first
option. -/
theorem subPass_flat_e (x : Char) (hx : isBrace x = false) (hp : (x == '|') = false)
    (r : Nat) (rs : List Nat) (h : r % 2 = 0) :
    subPass ['{', 'a', '|', x, '}'] (r :: rs) = (['a'], rs) := by
  have hx1 : ¬ x = '{' := by intro hh; subst hh; simp [isBrace] at hx
  have hx2 : ¬ x = '}' := by intro hh; subst hh; simp [isBrace] at hx
  have hx3 : ¬ x = '|' := by intro hh; subst hh; simp at hp
  simp [subPass, subPassF, groupSplit, spanNB, splitPipe, choiceOf, nextRand, isBrace, hx1,
    hx2, hx3, h]

/-- One sub pass on a flat two-option group, odd-indexed draw: second
option. -/
theorem subPass_flat_o (x : Char) (hx : isBrace x = false) (hp : (x == '|') = false)
    (r : Nat) (rs : List Nat) (h : r % 2 = 1) :
    subPass ['{', 'a', '|', x, '}'] (r :: rs) = ([x], rs) := by
  have hx1 : ¬ x = '{' := by intro hh; subst hh; simp [isBrace] at hx
  have hx2 : ¬ x = '}' := by intro hh; subst hh; simp [isBrace] at hx
  have hx3 : ¬ x = '|' := by intro hh; subst hh; simp at hp
  simp [subPass, subPassF, groupSplit, spanNB, splitPipe, choiceOf, nextRand, isBrace, hx1,
    hx2, hx3, h]

/-- C2: the spintax resolver replaces innermost groups until none remain.
Concretely the nested template over a, b, c always resolves to exactly one
of the one-letter texts a, b or c, whatever the random stream does (so no
brace survives); and in general the loop always terminates with no group
left in the output. -/
theorem C2_innermost_spintax :
    (∀ rs : List Nat,
      (process_spintax ['{', 'a', '|', '{', 'b', '|', 'c', '}', '}'] rs).1 ∈
        [['a'], ['b'], ['c']]) ∧
    (∀ (t : List Char) (rs : List Nat), hasGroup (process_spintax t rs).1 = false) := by
  constructor
  · intro rs
    have h2 : countOpen ['{', 'a', '|', '{', 'b', '|', 'c', '}', '}'] = 2 := by decide
    unfold process_spintax
    rw [h2]
    rcases rs with _ | ⟨r0, rs1⟩
    · decide
    · simp only [spinLoop]
      rw [if_pos (by decide : hasGroup ['{', 'a', '|', '{', 'b', '|', 'c', '}', '}'] = true)]
      rcases Nat.mod_two_eq_zero_or_one r0 with h0 | h0
      · rw [subPass_nested_e r0 rs1 h0]
        rcases rs1 with _ | ⟨r1, rs2⟩
        · decide
        · rw [if_pos (by decide : hasGroup ['{', 'a', '|', 'b', '}'] = true)]
          rcases Nat.mod_two_eq_zero_or_one r1 with h1 | h1
          · rw [subPass_flat_e 'b' (by decide) (by decide) r1 rs2 h1]
            simp
          · rw [subPass_flat_o 'b' (by decide) (by decide) r1 rs2 h1]
            simp
      · rw [subPass_nested_o r0 rs1 h0]
        rcases rs1 with _ | ⟨r1, rs2⟩
        · decide
        · rw [if_pos (by decide : hasGroup ['{', 'a', '|', 'c', '}'] = true)]
          rcases Nat.mod_two_eq_zero_or_one r1 with h1 | h1
          · rw [subPass_flat_e 'c' (by decide) (by decide) r1 rs2 h1]
            simp
          · rw [subPass_flat_o 'c' (by decide) (by decide) r1 rs2 h1]
            simp
  · intro t rs
    unfold process_spintax
    exact spinLoop_no_group (countOpen t) t rs le_rfl

/-! ### Variable substitution lemmas -/

/-- A list is a prefix of itself extended by anything. -/
theorem isPrefixOf_append_self : ∀ (p t : List Char), p.isPrefixOf (p ++ t) = true := by
  intro p
  induction p with
  | nil => intro t; simp [List.isPrefixOf]
  | cons c cs ih => intro t; simp [List.isPrefixOf, ih]

/-- A pattern starting with a different character is not a prefix. -/
theorem isPrefixOf_cons_ne {c d : Char} (h : ¬ c = d) (p t : List Char) :
    (c :: p).isPrefixOf (d :: t) = false := by
  simp [List.isPrefixOf, h]

/-- The fuel of replaceAllF is irrelevant once it covers the text. -/
theorem replaceAllF_fuel (pat rep : List Char) : ∀ (f1 f2 : Nat) (t : List Char),
    t.length ≤ f1 → t.length ≤ f2 → replaceAllF pat rep f1 t = replaceAllF pat rep f2 t := by
  intro f1
  induction f1 with
  | zero =>
    intro f2 t h1 h2
    have ht : t = [] := List.eq_nil_of_length_eq_zero (Nat.le_zero.mp h1)
    subst ht
    cases f2 <;> simp [replaceAllF]
  | succ f ih =>
    intro f2 t h1 h2
    rcases t with _ | ⟨c, cs⟩
    · cases f2 <;> simp [replaceAllF]
    · rcases f2 with _ | f2'
      · simp at h2
      · simp only [List.length_cons, Nat.add_le_add_iff_right] at h1 h2
        simp only [replaceAllF]
        by_cases hp : pat ≠ [] ∧ pat.isPrefixOf (c :: cs) = true
        · rw [if_pos hp, if_pos hp]
          have hlen : pat.length ≥ 1 := by
            rcases pat with _ | _
            · simp at hp
            · simp
          congr 1
          apply ih
          · simp only [List.length_drop, List.length_cons]
            omega
          · simp only [List.length_drop, List.length_cons]
            omega
        · rw [if_neg hp, if_neg hp]
          congr 1
          exact ih f2' cs h1 h2

/-- Text without an occurrence of the pattern is left unchanged. -/
theorem replaceAllF_not_contains (pat rep : List Char) : ∀ (f : Nat) (t : List Char),
    t.length ≤ f → containsSub pat t = false → replaceAllF pat rep f t = t := by
  intro f
  induction f with
  | zero =>
    intro t h hc
    simp [replaceAllF]
  | succ f ih =>
    intro t h hc
    rcases t with _ | ⟨c, cs⟩
    · simp [replaceAllF]
    · simp only [containsSub, Bool.or_eq_false_iff] at hc
      simp only [replaceAllF]
      rw [if_neg (by
        intro hand
        rw [hc.1] at hand
        exact Bool.false_ne_true hand.2)]
      simp only [List.length_cons, Nat.add_le_add_iff_right] at h
      rw [ih cs h hc.2]

/-- A replacement pass rewrites the leftmost occurrence of a nonempty
pattern: when no occurrence of the pattern starts before the shown one,
the prefix before it is copied verbatim, the occurrence becomes the
value, and replacement continues on the remainder only (replaced text is
never rescanned).  Applied repeatedly this is exactly how str.replace
rewrites every occurrence left to right. -/
theorem replaceAll_leftmost (p0 : Char) (pt v : List Char) :
    ∀ (a : List Char) (f : Nat) (b : List Char),
    (a ++ (p0 :: pt) ++ b).length ≤ f →
    (∀ i, i < a.length →
      (p0 :: pt).isPrefixOf ((a ++ (p0 :: pt) ++ b).drop i) = false) →
    replaceAllF (p0 :: pt) v f (a ++ (p0 :: pt) ++ b) =
      a ++ v ++ replaceAll (p0 :: pt) v b := by
  intro a
  induction a with
  | nil =>
    intro f b hf _
    rcases f with _ | f'
    · simp at hf
    · simp only [List.nil_append, List.cons_append] at hf ⊢
      simp only [replaceAllF]
      rw [if_pos ⟨by simp, by
        simp only [List.isPrefixOf, beq_self_eq_true, Bool.true_and]
        exact isPrefixOf_append_self pt b⟩]
      rw [List.length_cons, List.drop_succ_cons, List.drop_left]
      congr 1
      have hble : b.length ≤ f' := by
        simp only [List.length_cons, List.length_append] at hf
        omega
      exact replaceAllF_fuel _ _ f' b.length b hble le_rfl
  | cons c a' ih =>
    intro f b hf hocc
    have h0 := hocc 0 (by simp)
    rcases f with _ | f'
    · simp at hf
    · simp only [List.cons_append, List.drop_zero] at hf h0 ⊢
      simp only [replaceAllF]
      rw [if_neg (by
        intro hand
        rw [h0] at hand
        exact Bool.false_ne_true hand.2)]
      have hf' : (a' ++ (p0 :: pt) ++ b).length ≤ f' := by
        simp only [List.length_cons, List.length_append] at hf ⊢
        omega
      have hocc' : ∀ i, i < a'.length →
          (p0 :: pt).isPrefixOf ((a' ++ (p0 :: pt) ++ b).drop i) = false := by
        intro i hi
        have := hocc (i + 1) (by simp only [List.length_cons]; omega)
        simpa [List.cons_append, List.drop_succ_cons] using this
      have := ih f' b hf' hocc'
      simp only [List.cons_append] at this
      rw [this]

/-- C3, counterexample.  An unknown placeholder does survive the variable
substitution step, but the subsequent spintax resolution strips its
braces twice, so the final expanded subject for the template containing
the unknown placeholder foo is the text with foo bare: the placeholder
does not appear verbatim in the final output. -/
theorem C3_counterexample :
    (build_message "Ana".data
        ('H' :: 'i' :: ' ' :: '{' :: '{' :: 'f' :: 'o' :: 'o' :: '}' :: '}' :: [])
        [] []).1.1 = "Hi foo".data ∧
    containsSub ('{' :: '{' :: 'f' :: 'o' :: 'o' :: '}' :: '}' :: []) "Hi foo".data = false := by
  constructor <;> decide

/-- C3, amended: the variable-substitution step replaces every occurrence
of a known doubled-brace placeholder with its value, left to right: an
occurrence before which no occurrence starts is replaced by the value
with the text before it copied verbatim and substitution continuing only
on the text after it, and text containing no occurrence at all — in
particular any unknown placeholder — is left unchanged; the later
spintax step however strips the braces of unknown placeholders, so the
final build_message output shows foo, not the placeholder. -/
theorem C3_placeholder_substitution :
    (∀ (k v t : List Char),
      containsSub (['{', '{'] ++ k ++ ['}', '}']) t = false →
      replace_variables t [(k, v)] = t) ∧
    (∀ (k v a b : List Char),
      (∀ i, i < a.length →
        (['{', '{'] ++ k ++ ['}', '}']).isPrefixOf
          ((a ++ (['{', '{'] ++ k ++ ['}', '}']) ++ b).drop i) = false) →
      replaceAll (['{', '{'] ++ k ++ ['}', '}']) v
          (a ++ (['{', '{'] ++ k ++ ['}', '}']) ++ b) =
        a ++ v ++ replaceAll (['{', '{'] ++ k ++ ['}', '}']) v b) ∧
    (build_message "Ana".data
        ('H' :: 'i' :: ' ' :: '{' :: '{' :: 'f' :: 'o' :: 'o' :: '}' :: '}' :: [])
        [] []).1.1 = "Hi foo".data := by
  refine ⟨?_, ?_, by decide⟩
  · intro k v t h
    unfold replace_variables
    simp only [List.foldl]
    exact replaceAllF_not_contains _ _ _ t le_rfl h
  · intro k v a b hocc
    unfold replaceAll
    exact replaceAll_leftmost '{' ('{' :: (k ++ ['}', '}'])) v a _ b le_rfl hocc

/-- C3, witness for the amended theorem at concrete inputs; the prefix
before the replaced occurrence contains a spintax group, so the
leftmost-occurrence hypothesis, unlike a brace-freeness one, holds for
realistic templates. -/
theorem C3_witness :
    replace_variables "Dear name".data [("first_name".data, "Ana".data)] = "Dear name".data ∧
    replaceAll (['{', '{'] ++ "first_name".data ++ ['}', '}']) "Ana".data
        ((['{'] ++ "Hi|Hey".data ++ ['}'] ++ " ".data) ++
          (['{', '{'] ++ "first_name".data ++ ['}', '}']) ++ "!".data) =
      (['{'] ++ "Hi|Hey".data ++ ['}'] ++ " ".data) ++ "Ana".data ++
        replaceAll (['{', '{'] ++ "first_name".data ++ ['}', '}']) "Ana".data "!".data :=
  ⟨C3_placeholder_substitution.1 "first_name".data "Ana".data "Dear name".data (by decide),
    C3_placeholder_substitution.2.1 "first_name".data "Ana".data
      (['{'] ++ "Hi|Hey".data ++ ['}'] ++ " ".data) "!".data (by decide)⟩

/-! ### Fetcher and loader lemmas -/

/-- The fetch loop only ever sees the documents before the first raised
error. -/
theorem fetchLoop_takeWhile (source : String) : ∀ (steps : List FetchStep)
    (acc : List (String × Recipient)),
    fetchLoop source steps acc = fetchLoop source (steps.takeWhile isDoc) acc := by
  intro steps
  induction steps with
  | nil => intro acc; rfl
  | cons s rest ih =>
    intro acc
    cases s with
    | doc d => simp [fetchLoop, List.takeWhile, isDoc, ih]
    | err m => simp [fetchLoop, List.takeWhile, isDoc]

/-- C5, counterexample.  A cursor that yields one valid document and then
raises contributes that document's recipient, not zero recipients: the
claim that an erroring source contributes zero recipients fails for
errors raised after part of the result was accumulated. -/
theorem C5_counterexample :
    fetch_from_mongodb true
        (Except.ok [FetchStep.doc ⟨some (PyVal.str "a@b.com"), some "Ann Lee"⟩,
          FetchStep.err "connection reset mid-cursor"]) =
      [("a@b.com", ⟨"a@b.com", "Ann", "MongoDB"⟩)] ∧
    (fetch_from_mongodb true
        (Except.ok [FetchStep.doc ⟨some (PyVal.str "a@b.com"), some "Ann Lee"⟩,
          FetchStep.err "connection reset mid-cursor"])).length ≠ 0 := by
  constructor <;> decide

/-- C5, amended: a source that raises contributes exactly the recipients
accumulated before the first error — zero when the connection, query or
parse raises before any document — and the error never escapes: both
fetchers return normally and aggregation of the other source proceeds. -/
theorem C5_source_error_absorbed :
    (∀ msg, fetch_from_mongodb true (Except.error msg) = []) ∧
    (∀ (enabled : Bool) (steps : List FetchStep),
      fetch_from_mongodb enabled (Except.ok steps) =
        if enabled then fetchLoop "MongoDB" (steps.takeWhile isDoc) [] else []) ∧
    (∀ msg, fetch_from_json (some (Except.error msg)) = []) ∧
    (∀ entries : List FetchStep, fetch_from_json (some (Except.ok entries)) =
      fetchLoop "JSON" (entries.takeWhile isDoc) []) ∧
    fetch_from_json none = [] := by
  refine ⟨fun msg => rfl, ?_, fun msg => rfl, ?_, rfl⟩
  · intro enabled steps
    cases enabled with
    | false => rfl
    | true =>
      simp only [fetch_from_mongodb, Bool.not_true, Bool.false_eq_true, if_false, if_true]
      exact fetchLoop_takeWhile "MongoDB" steps []
  · intro entries
    simp only [fetch_from_json]
    exact fetchLoop_takeWhile "JSON" entries []

/-- C4, counterexample.  The empty JSON object parses, so the only
handler (for json.JSONDecodeError) is not reached, and the loader then
raises a KeyError computing len of the missing sent entry: content that
is valid JSON but not a well-formed ledger crashes the load instead of
producing the default ledger. -/
theorem C4_counterexample :
    wellFormedLedger (JValue.obj []) = false ∧
    tracker_load (some (JValue.obj [])) = Except.error "KeyError" := by
  constructor <;> rfl

/-- C4, amended: only content that fails JSON parsing is absorbed to the
default ledger with a warning; content that parses is installed verbatim
(well formed or not) provided its sent and failed entries exist and
support len, and in particular every well-formed ledger loads; valid
JSON without those entries raises an uncaught error. -/
theorem C4_corrupt_progress_load :
    tracker_load none = Except.ok (defaultData, true) ∧
    (∀ (v : JValue) (r : JValue × Bool), tracker_load (some v) = Except.ok r →
      r = (v, false)) ∧
    (∀ v : JValue, wellFormedLedger v = true → tracker_load (some v) = Except.ok (v, false)) := by
  refine ⟨rfl, ?_, ?_⟩
  · intro v r h
    simp only [tracker_load, bind, Except.bind] at h
    rcases h1 : subscript v "sent" with e1 | s1 <;> simp only [h1] at h
    · cases h
    · rcases h2 : pyLen s1 with e2 | n2 <;> simp only [h2] at h
      · cases h
      · rcases h3 : subscript v "failed" with e3 | s3 <;> simp only [h3] at h
        · cases h
        · rcases h4 : pyLen s3 with e4 | n4 <;> simp only [h4] at h
          · cases h
          · injection h with h5
            exact h5.symm
  · intro v hw
    cases v with
    | null => simp [wellFormedLedger] at hw
    | bool b => simp [wellFormedLedger] at hw
    | num n => simp [wellFormedLedger] at hw
    | str s => simp [wellFormedLedger] at hw
    | arr xs => simp [wellFormedLedger] at hw
    | obj kvs =>
      simp only [wellFormedLedger, Bool.and_eq_true] at hw
      obtain ⟨⟨⟨h1, h2⟩, h3⟩, h4⟩ := hw
      rcases hf1 : kvs.find? (fun p => p.1 == "sent") with _ | ⟨k1, v1⟩
      · rw [hf1] at h1; simp at h1
      · rw [hf1] at h1
        cases v1 with
        | arr xs =>
          rcases hf2 : kvs.find? (fun p => p.1 == "failed") with _ | ⟨k2, v2⟩
          · rw [hf2] at h2; simp at h2
          · rw [hf2] at h2
            cases v2 with
            | obj fs =>
              simp only [tracker_load, subscript, bind, Except.bind]
              rw [hf1, hf2]
              rfl
            | null => simp at h2
            | bool b => simp at h2
            | num n => simp at h2
            | str s2 => simp at h2
            | arr ys => simp at h2
        | null => simp at h1
        | bool b => simp at h1
        | num n => simp at h1
        | str s2 => simp at h1
        | obj os => simp at h1

/-- C4, witness: a well-formed persisted ledger loads verbatim without
the warning. -/
theorem C4_witness :
    tracker_load (some (JValue.obj [("sent", JValue.arr [JValue.str "a@b.com"]),
        ("failed", JValue.obj []), ("daily_count", JValue.num 3),
        ("daily_date", JValue.str "2026-10-11")])) =
      Except.ok (JValue.obj [("sent", JValue.arr [JValue.str "a@b.com"]),
        ("failed", JValue.obj []), ("daily_count", JValue.num 3),
        ("daily_date", JValue.str "2026-10-11")], false) :=
  C4_corrupt_progress_load.2.2 _ (by rfl)

/-! ### Campaign driver lemmas -/

/-- The preview loop previews exactly the recipients it is given. -/
theorem previewLoop_length (subj body : List Char) : ∀ (l : List Recipient) (rs : List Nat),
    (previewLoop subj body l rs).length = l.length := by
  intro l
  induction l with
  | nil => intro rs; rfl
  | cons r rest ih => intro rs; simp [previewLoop, ih]

/-- The send loop attempts exactly the recipients it is given, in
order. -/
theorem sendLoop_sends (today : String) (subj body : List Char) :
    ∀ (l : List Recipient) (rs : List Nat) (outs : List (Option String)) (L : Ledger),
    (sendLoop today subj body l rs outs L).2 = l.map Recipient.email := by
  intro l
  induction l with
  | nil => intro rs outs L; rfl
  | cons r rest ih => intro rs outs L; simp [sendLoop, ih]

/-- The limit section only ever truncates: its output recipients all come
from its input. -/
theorem applyLimits_subset (limit : Option Int) (remaining : Nat)
    (pending : List Recipient) (r : Recipient) (hr : r ∈ applyLimits limit remaining pending) :
    r ∈ pending := by
  simp only [applyLimits, pySlice] at hr
  rcases limit with _ | n <;> simp only at hr <;> split_ifs at hr <;>
    solve_by_elim [List.take_subset _ _]

/-- C9: a dry run leaves the ledger exactly as loaded, hands nothing to
the sender (mark_sent and mark_failed are only reachable from the send
loop, which a dry run never enters), and previews at most 20
recipients. -/
theorem C9_dry_run_pure (daily_limit : Nat) (today : String) (L : Ledger)
    (recipients : List Recipient) (limit : Option Int)
    (subject_template body_template : List Char) (rs : List Nat)
    (outcomes : List (Option String)) :
    (run_campaign daily_limit today L recipients true limit subject_template
      body_template rs outcomes).ledger = L ∧
    (run_campaign daily_limit today L recipients true limit subject_template
      body_template rs outcomes).sends = [] ∧
    (run_campaign daily_limit today L recipients true limit subject_template
      body_template rs outcomes).previews.length ≤ 20 := by
  simp only [run_campaign]
  split_ifs <;> refine ⟨rfl, rfl, ?_⟩ <;>
    simp [previewLoop_length, List.length_take]

/-- C1: a campaign run never hands the sender an address the loaded
ledger already knows as sent: every recipient whose email satisfies
is_sent, in particular every exact member of the sent list, is dropped by
the pending filter before the limits and the send loop; hence a second
run over the same inputs re-sends nothing that the first run recorded. -/
theorem C1_no_resend_of_sent (daily_limit : Nat) (today : String) (L : Ledger)
    (recipients : List Recipient) (dry_run : Bool) (limit : Option Int)
    (subject_template body_template : List Char) (rs : List Nat)
    (outcomes : List (Option String)) :
    (∀ e : String, is_sent L e = true →
      e ∉ (run_campaign daily_limit today L recipients dry_run limit subject_template
        body_template rs outcomes).sends) ∧
    (∀ e : String, e ∈ L.sent →
      e ∉ (run_campaign daily_limit today L recipients dry_run limit subject_template
        body_template rs outcomes).sends) := by
  have main : ∀ e : String, is_sent L e = true →
      e ∉ (run_campaign daily_limit today L recipients dry_run limit subject_template
        body_template rs outcomes).sends := by
    intro e he hmem
    simp only [run_campaign] at hmem
    split_ifs at hmem <;> try simp at hmem
    rw [sendLoop_sends] at hmem
    obtain ⟨r, hr, hre⟩ := List.mem_map.mp hmem
    have hrp : r ∈ recipients.filter (fun r => !(is_sent L r.email)) :=
      applyLimits_subset _ _ _ r hr
    have hflt := List.of_mem_filter hrp
    rw [hre, he] at hflt
    simp at hflt
  exact ⟨main, fun e he => main e (is_sent_of_mem he)⟩

/-- C1, witness: with a@b.com recorded as sent, a run over a recipient
list containing it again does not hand it to the sender. -/
theorem C1_witness :
    "a@b.com" ∉ (run_campaign 100 "2026-10-12" ⟨["a@b.com"], [], 3, some "2026-10-12"⟩
        [⟨"a@b.com", "Ann", "JSON"⟩, ⟨"c@d.com", "Cory", "JSON"⟩] false none
        "Hello".data "Body".data [] [none, none]).sends :=
  (C1_no_resend_of_sent 100 "2026-10-12" ⟨["a@b.com"], [], 3, some "2026-10-12"⟩
    [⟨"a@b.com", "Ann", "JSON"⟩, ⟨"c@d.com", "Cory", "JSON"⟩] false none
    "Hello".data "Body".data [] [none, none]).2 "a@b.com" (by decide)

end Mailer
